import Mathlib

/-!
Verification of the bounded-memory scanning & sampling engine of
llm-cartographer (`src/llm_cartographer/utils.py`) via a shallow embedding.

Modelling conventions:
* File contents are byte lists (`List Nat`, each entry one byte value).
  All contents appearing in the theorems are single-byte (ASCII) texts, for
  which Python's UTF-8 decoding with `errors='ignore'` is the identity, so a
  text-mode read of `n` characters is `List.take n` on the byte list.
* The file system is modelled per path by an `Option (List Nat)`: `some c`
  means every `stat`/`open`/`read`/`seek` on the path succeeds and the file
  holds bytes `c`; `none` means every file-system primitive on the path
  raises (missing file / permission denied).  Raising is `Except.error`,
  Python's `try/except` is the total handler `handled`.
* `mimetypes.guess_type(path.name)` and `path.suffix.lower()` are inputs
  (`mime : Option String`, `suffix : String`) since they are computed from
  the file name alone by the Python standard library.
-/

namespace LlmCartographer

set_option maxRecDepth 8000

/-- Byte list of an ASCII string literal. -/
def strBytes (s : String) : List Nat := s.data.map Char.toNat

/-- Message carried by `FileNotFoundError`/`OSError` in the model. -/
def fnfMsg : String := "No such file or directory"

/-- Models `path.stat().st_size`: raises when the path is unreadable. -/
def statSize : Option (List Nat) → Except String Nat
  | none => .error fnfMsg
  | some c => .ok c.length

/-- Models `open(path, ...)` followed by reading the whole content:
raises when the path is unreadable. -/
def openRead : Option (List Nat) → Except String (List Nat)
  | none => .error fnfMsg
  | some c => .ok c

/-- Models a Python `try: ... except Exception as e: handler(e)` block. -/
def handled {α : Type} (x : Except String α) (h : String → α) : α :=
  match x with
  | .ok a => a
  | .error e => h e

/-- Embeds `count_lines_in_file` (utils.py lines 89-128): count newline
bytes; empty file gives 0; a non-empty file whose last byte is not a newline
gets one extra (unterminated) line; any error is caught and gives 0. -/
def count_lines_in_file (file : Option (List Nat)) : Nat :=
  handled
    (do
      let content ← openRead file
      let line_count := content.count 10
      if content.length = 0 then
        pure 0
      else
        pure (if content.getLast? = some 10 then line_count else line_count + 1))
    (fun _ => 0)

/-- Structured-text MIME allow-list of `is_text_file` (utils.py 146-149). -/
def textMimeAllowList : List String :=
  ["application/json", "application/xml", "application/javascript",
   "application/x-python", "application/x-ruby", "application/x-sh"]

/-- Known text extensions of `is_text_file` (utils.py 152-157). -/
def text_extensions : List String :=
  [".txt", ".md", ".py", ".js", ".ts", ".html", ".css", ".json", ".xml",
   ".yml", ".yaml", ".ini", ".conf", ".cfg", ".sh", ".bash", ".c", ".cpp",
   ".h", ".hpp", ".java", ".rb", ".pl", ".php", ".rs", ".go", ".swift",
   ".kt", ".kts", ".dart", ".lua", ".ex", ".exs", ".clj", ".scala", ".sql"]

/-- Whether a byte is a UTF-8 continuation byte (10xxxxxx). -/
def utf8ContB (b : Nat) : Bool := decide (128 ≤ b ∧ b < 192)

/-- Whether a byte list is valid (strictly decodable) UTF-8, as Python's
`bytes.decode('utf-8')` checks it: rejects stray continuation bytes,
overlong forms, surrogates and code points above U+10FFFF. -/
def utf8Valid : List Nat → Bool
  | [] => true
  | b :: rest =>
    if b < 128 then utf8Valid rest
    else if b < 194 then false
    else if b < 224 then
      match rest with
      | b1 :: r => utf8ContB b1 && utf8Valid r
      | [] => false
    else if b < 240 then
      match rest with
      | b1 :: b2 :: r =>
        (if b = 224 then decide (160 ≤ b1 ∧ b1 < 192)
         else if b = 237 then decide (128 ≤ b1 ∧ b1 < 160)
         else utf8ContB b1) && utf8ContB b2 && utf8Valid r
      | _ => false
    else if b < 245 then
      match rest with
      | b1 :: b2 :: b3 :: r =>
        (if b = 240 then decide (144 ≤ b1 ∧ b1 < 192)
         else if b = 244 then decide (128 ≤ b1 ∧ b1 < 144)
         else utf8ContB b1) && utf8ContB b2 && utf8ContB b3 && utf8Valid r
      | _ => false
    else false

/-- Python's `s.startswith(p)`: `p` is a prefix of the character sequence
of `s`. -/
def strStartsWith (s p : String) : Bool := p.data.isPrefixOf s.data

/-- Embeds `is_text_file` (utils.py lines 131-178).  `mime` is the result of
`mimetypes.guess_type(path.name)` and `suffix` is `path.suffix.lower()`,
both computed from the file name alone.  Order, as in the source: MIME
lookup first, then the extension table, then content sniffing of the first
4096 bytes (null byte ⇒ binary, else UTF-8 decode), with any read failure
caught and returned as `false`. -/
def is_text_file (mime : Option String) (suffix : String)
    (file : Option (List Nat)) : Bool :=
  match mime with
  | some m => strStartsWith m "text/" || textMimeAllowList.contains m
  | none =>
    if text_extensions.contains suffix then
      true
    else
      match file with
      | none => false
      | some content =>
        let c := content.take 4096
        if c.contains 0 then false else utf8Valid c

/-- Name-only classification: the result `is_text_file` computes before it
would touch the file system (utils.py lines 144-160). -/
def isTextByName (mime : Option String) (suffix : String) : Bool :=
  match mime with
  | some m => strStartsWith m "text/" || textMimeAllowList.contains m
  | none => text_extensions.contains suffix

/-- Result record of `get_file_info`, restricted to the content-derived
fields the specification constrains (path string, name and mtime metadata
are carried through unchanged by the source and are omitted). -/
inductive FileInfo where
  | record (size_bytes : Nat) (is_text : Bool) (line_count : Option Nat)
  | errorRecord (error : String)
deriving DecidableEq

/-- Embeds `get_file_info` (utils.py lines 181-212): stat, classify, and
count lines only for text files; any failure yields a minimal error
record. -/
def get_file_info (mime : Option String) (suffix : String)
    (file : Option (List Nat)) : FileInfo :=
  handled
    (do
      let sz ← statSize file
      let it := is_text_file mime suffix file
      pure (FileInfo.record sz it
        (if it then some (count_lines_in_file file) else none)))
    (fun e => FileInfo.errorRecord e)

/-- Embeds `safe_read_file` (utils.py lines 58-86).  With `max_size = some m`
the source evaluates `path.stat().st_size > max_size` outside any
`try` block, and in the large-file branch also opens the file outside any
`try`; only the whole-file branch is wrapped in `try/except`.  The return
type is `Except`: `.error` means an exception propagates to the caller. -/
def safe_read_file (file : Option (List Nat)) (max_size : Option Nat) :
    Except String (List Nat) :=
  match max_size with
  | some m =>
    match statSize file with
    | .error e => .error e
    | .ok sz =>
      if m < sz then
        match openRead file with
        | .error e => .error e
        | .ok content => .ok (content.take m)
      else
        .ok (handled (openRead file)
          (fun e => strBytes "[Error reading file: " ++ strBytes e ++ strBytes "]"))
  | none =>
    .ok (handled (openRead file)
      (fun e => strBytes "[Error reading file: " ++ strBytes e ++ strBytes "]"))

/-- Splits off the first line of a byte list, keeping its terminating
newline, as Python's `f.readline()` returns it; the second component is the
rest of the content. -/
def splitFirstLine : List Nat → List Nat × List Nat
  | [] => ([], [])
  | b :: rest =>
    if b = 10 then ([10], rest)
    else
      let p := splitFirstLine rest
      (b :: p.1, p.2)

/-- Embeds the forward `readline` loop of `memory_efficient_file_sample`
(utils.py lines 364-370): read up to `k` lines, each with its newline,
stopping early at end of file. -/
def firstLines : Nat → List Nat → List (List Nat)
  | 0, _ => []
  | _ + 1, [] => []
  | k + 1, content =>
    let p := splitFirstLine content
    p.1 :: firstLines k p.2

/-- Models Python's `str.split('\n')` on a byte list: the parts between
newline bytes, separators removed; the empty list splits to `[[]]`. -/
def splitOnNl : List Nat → List (List Nat)
  | [] => [[]]
  | b :: rest =>
    let r := splitOnNl rest
    if b = 10 then [] :: r
    else
      match r with
      | [] => [[b]]
      | h :: t => (b :: h) :: t

/-- Embeds the `for line in reversed(lines)` loop of
`memory_efficient_file_sample` (utils.py lines 399-403), taking the chunk's
split parts already reversed.  `appendleft` on a `deque(maxlen=k)` is
`(l :: d).take k` (a full deque discards its rightmost entry); the loop
breaks as soon as the deque holds `k` entries, and skips empty parts. -/
def procChunkLines (k : Nat) : List (List Nat) → List (List Nat) → List (List Nat)
  | [], d => d
  | l :: rest, d =>
    let d1 := if l ≠ [] then (l :: d).take k else d
    if k ≤ d1.length then d1 else procChunkLines k rest d1

/-- Embeds the backward chunked read of `memory_efficient_file_sample`
(utils.py lines 377-403): while `position > 0` and fewer than `k` newlines
have been counted, read the previous (at most 4096-byte) chunk, split it on
newlines, add the number of newlines to the running count and feed the
parts, last first, to the bounded deque. -/
def backwardLoop (content : List Nat) (k : Nat) :
    Nat → Nat → List (List Nat) → List (List Nat)
  | position, line_count, d =>
    if h : position = 0 ∨ k ≤ line_count then d
    else
      let read_size := min 4096 position
      let chunk := (content.drop (position - read_size)).take read_size
      let lines := splitOnNl chunk
      backwardLoop content k (position - read_size)
        (line_count + (lines.length - 1)) (procChunkLines k lines.reverse d)
  termination_by position _ _ => position
  decreasing_by
    simp only [not_or] at h
    exact Nat.sub_lt (Nat.pos_of_ne_zero h.1)
      (Nat.lt_of_lt_of_le Nat.zero_lt_one (Nat.le_min.mpr ⟨by decide, Nat.one_le_iff_ne_zero.mpr h.1⟩))

/-- Truncation marker of the small-file branch (utils.py line 361). -/
def inlineMarker : List Nat := strBytes "...\n[content truncated]\n..."

/-- Truncation marker of the head/tail branch (utils.py line 408). -/
def blockMarker : List Nat := strBytes "\n...\n[content truncated]\n...\n"

/-- Python's slice `c[-h:]`: the last `h` elements, or all of `c` when
`h = 0`.  Appears only in the (unreachable) inline-truncation form. -/
def pySliceLast (c : List Nat) (h : Nat) : List Nat :=
  if h = 0 then c else c.drop (c.length - h)

/-- Embeds `memory_efficient_file_sample` (utils.py lines 332-414).
Empty file ⇒ empty string; a file of byte size below `2 * max_size` is read
in text mode up to `max_size` characters and returned (or inline-truncated
when the guard fails); larger files get the first `sample_lines` lines,
then the last `sample_lines` lines via backward 4096-byte chunks, joined
with the block truncation marker when both parts are non-empty and the
file has more lines than were taken at the head.  Any failure is caught
and replaced by a diagnostic placeholder string. -/
def memory_efficient_file_sample (file : Option (List Nat))
    (sample_lines : Nat) (max_size : Nat) : List Nat :=
  match file with
  | none =>
    strBytes "[Error reading file: " ++ strBytes fnfMsg ++ strBytes "]"
  | some content =>
    let file_size := content.length
    if file_size = 0 then []
    else if file_size < max_size * 2 then
      let c := content.take max_size
      if c.length ≤ max_size then c
      else c.take (max_size / 2) ++ inlineMarker ++ pySliceLast c (max_size / 2)
    else
      let first_lines := firstLines sample_lines content
      let last_lines := backwardLoop content sample_lines file_size 0 []
      let combined := first_lines.flatten
      let combined :=
        if first_lines ≠ [] ∧ last_lines ≠ [] ∧
            first_lines.length < count_lines_in_file (some content) then
          combined ++ blockMarker
        else combined
      combined ++ List.intercalate [10] last_lines

/-- Embeds the no-progress branch of `parallel_process` (utils.py lines
267-278).  Every item is submitted to the pool exactly once;
`as_completed` yields the finished futures in an unspecified order, so a
run is modelled by `completed`, the items in their completion order (any
permutation of the submitted items).  `future.result()` re-raises the
exception of a failed operation (`Except.error`), which the loop catches
and logs; the second component counts the `logger.error` calls. -/
def parallel_process {T R : Type} (completed : List T)
    (process_func : T → Except String R) : List R × Nat :=
  completed.foldl
    (fun acc item =>
      match process_func item with
      | .ok r => (acc.1 ++ [r], acc.2)
      | .error _ => (acc.1, acc.2 + 1))
    ([], 0)

/-- On the whole-file/truncated-byte path (byte size below `2 * max_size`)
the sampler returns exactly the text-mode read, the first `max_size`
characters of the file: the `len(content) <= max_size` guard always holds
because the read itself requested at most `max_size` characters. -/
theorem sample_small_eq_take (content : List Nat) (k m : Nat)
    (h : content.length < m * 2) :
    memory_efficient_file_sample (some content) k m = content.take m := by
  by_cases h0 : content.length = 0
  · have hnil : content = [] := List.length_eq_zero.mp h0
    subst hnil
    simp [memory_efficient_file_sample]
  · have hle : (content.take m).length ≤ m := by
      simp [List.length_take]
    simp [memory_efficient_file_sample, h0, h, hle]

/-- C9: in the small-file branch (file byte size below `2 * max_chars`) the
guard `len(content) <= max_chars` always holds, the read content is
returned verbatim, and the inline head-half/marker/tail-half form is never
produced. -/
theorem claim_inline_truncation_unreachable (content : List Nat) (k m : Nat)
    (h : content.length < m * 2) :
    memory_efficient_file_sample (some content) k m = content.take m ∧
    (content.take m).length ≤ m :=
  ⟨sample_small_eq_take content k m h, by simp [List.length_take]⟩

/-- Witness: a 3-byte file with `max_chars = 2` is returned as its 2-byte
prefix. -/
theorem claim_inline_truncation_unreachable_witness :
    ([97, 98, 99] : List Nat).length < 2 * 2 ∧
    memory_efficient_file_sample (some [97, 98, 99]) 1 2 = [97, 98] ∧
    (([97, 98, 99] : List Nat).take 2).length ≤ 2 := by
  have h := claim_inline_truncation_unreachable [97, 98, 99] 1 2 (by decide)
  exact ⟨by decide, by rw [h.1]; decide, h.2⟩

/-- C7: on the whole-file/truncated-byte path the sampler never returns a
string longer than `max_chars`.  (The marker clause of the claim is
vacuous on this path: by `claim_inline_truncation_unreachable` the result
is the verbatim read and inline truncation never occurs.) -/
theorem claim_budget_bound (content : List Nat) (k m : Nat)
    (h : content.length < m * 2) :
    (memory_efficient_file_sample (some content) k m).length ≤ m := by
  rw [sample_small_eq_take content k m h]
  simp [List.length_take]

/-- Witness: a 5-byte file with `max_chars = 3` yields a sample of length
at most 3. -/
theorem claim_budget_bound_witness :
    ([1, 2, 3, 4, 5] : List Nat).length < 3 * 2 ∧
    (memory_efficient_file_sample (some [1, 2, 3, 4, 5]) 2 3).length ≤ 3 :=
  ⟨by decide, claim_budget_bound [1, 2, 3, 4, 5] 2 3 (by decide)⟩

/-- Bytes of the line `"Line <i>\n"`. -/
def lineBytes (i : Nat) : List Nat :=
  strBytes "Line " ++ (Nat.toDigits 10 i).map Char.toNat ++ [10]

/-- The 100-line, 790-byte file `"Line 0\n" … "Line 99\n"`. -/
def file100 : List Nat := (List.range 100).flatMap lineBytes

/-- C4 (failing input of the repository's own `test_sample_large_file`):
for the 100-line file `"Line 0\n"…"Line 99\n"`,
`sample(path, 5, 5000)` takes the small-file branch (790 < 2·5000) and
returns the entire content; every line `"Line i\n"` is present, but the
required marker `"[content truncated]"` does not occur in the output. -/
theorem claim_hundred_line_sample_bug :
    memory_efficient_file_sample (some file100) 5 5000 = file100 ∧
    (∀ i ∈ List.range 100, lineBytes i <:+: file100) ∧
    ¬ strBytes "[content truncated]" <:+:
        memory_efficient_file_sample (some file100) 5 5000 := by
  have hlen : file100.length = 790 := by decide
  have heq : memory_efficient_file_sample (some file100) 5 5000 = file100 := by
    rw [sample_small_eq_take file100 5 5000 (by rw [hlen]; norm_num)]
    exact List.take_of_length_le (by rw [hlen]; norm_num)
  refine ⟨heq, ?_, ?_⟩
  · intro i hi
    have hmem : lineBytes i ∈ (List.range 100).map lineBytes :=
      List.mem_map_of_mem lineBytes hi
    have : lineBytes i <:+: ((List.range 100).map lineBytes).flatten :=
      List.infix_of_mem_flatten hmem
    simpa [file100, List.flatMap_def] using this
  · rw [heq]
    intro hmark
    exact absurd (hmark.subset (by decide : (91 : Nat) ∈ strBytes "[content truncated]"))
      (by decide : ¬ (91 : Nat) ∈ file100)

/-- C2 counterexample: a file whose name yields the MIME type
`"text/plain"` (as `mimetypes.guess_type` returns for any `.txt` name) is
classified as text even though its content holds a null byte among its
first 4096 bytes: the MIME lookup precedes and short-circuits content
sniffing. -/
theorem claim_null_byte_counterexample :
    is_text_file (some "text/plain") ".txt" (some [66, 105, 0, 68]) = true ∧
    (0 : Nat) ∈ ([66, 105, 0, 68] : List Nat).take 4096 := by
  constructor
  · decide
  · decide

/-- C2 amended: among files that reach the content-sniffing step — the
name yields no MIME type and the extension is not in the known text set —
a null byte within the first 4096 bytes forces classification as binary. -/
theorem claim_null_byte_sniff_amended (suffix : String) (content : List Nat)
    (hext : text_extensions.contains suffix = false)
    (hnull : (content.take 4096).contains 0 = true) :
    is_text_file none suffix (some content) = false := by
  unfold is_text_file
  rw [hext]
  show (if (List.take 4096 content).contains 0 = true then false
        else utf8Valid (List.take 4096 content)) = false
  rw [hnull]
  simp

/-- Witness: a one-byte file `b"\x00"` with unknown suffix `.weird` is
classified as binary. -/
theorem claim_null_byte_sniff_amended_witness :
    text_extensions.contains ".weird" = false ∧
    (([0] : List Nat).take 4096).contains 0 = true ∧
    is_text_file none ".weird" (some [0]) = false := by
  refine ⟨by decide, by decide, ?_⟩
  exact claim_null_byte_sniff_amended ".weird" [0] (by decide) (by decide)

/-- C10: when the file name alone already classifies the path (a text MIME
type or a known text extension), `is_text_file` answers `true` for every
file-system state, including a nonexistent path, without ever reading; and
on a nonexistent path with no MIME guess it returns the plain extension
answer (never an exception, the read failure is caught as `false`). -/
theorem claim_is_text_no_read (mime : Option String) (suffix : String)
    (file : Option (List Nat)) (h : isTextByName mime suffix = true) :
    is_text_file mime suffix file = true ∧
    is_text_file mime suffix none = true ∧
    is_text_file none suffix none = text_extensions.contains suffix := by
  have hbase : ∀ s : String, is_text_file none s none = text_extensions.contains s := by
    intro s
    unfold is_text_file
    cases hc : text_extensions.contains s <;> simp [hc]
  cases mime with
  | some m => exact ⟨h, h, hbase suffix⟩
  | none =>
    have hs : text_extensions.contains suffix = true := h
    refine ⟨?_, ?_, hbase suffix⟩ <;> · unfold is_text_file; rw [hs]; rfl

/-- Witness: a nonexistent `.py` path is classified as text from its name
alone, whatever the file system holds. -/
theorem claim_is_text_no_read_witness :
    isTextByName none ".py" = true ∧
    is_text_file none ".py" (some [0]) = true ∧
    is_text_file none ".py" none = true := by
  have h := claim_is_text_no_read none ".py" (some [0]) (by decide)
  exact ⟨by decide, h.1, h.2.1⟩

/-- C3 counterexample: with a byte bound supplied, `safe_read_file`
evaluates `path.stat()` in the branch condition outside any `try` block,
so for a missing file the I/O error propagates to the caller instead of
being converted to a safe default. -/
theorem claim_io_errors_counterexample :
    safe_read_file none (some 100) = Except.error fnfMsg := rfl

/-- C3 amended: the line counter, classifier, sampler, file-info extractor
and the unbounded reader all catch I/O errors at the point of use and
return safe defaults (0 lines, the extension answer resp. `false` for
text, a diagnostic placeholder, a minimal error record); only
`safe_read_file` with a byte bound lets a stat failure propagate
(`claim_io_errors_counterexample`). -/
theorem claim_io_errors_amended (mime : Option String) (suffix : String)
    (k m : Nat) :
    count_lines_in_file none = 0 ∧
    is_text_file none suffix none = text_extensions.contains suffix ∧
    memory_efficient_file_sample none k m =
      strBytes "[Error reading file: " ++ strBytes fnfMsg ++ strBytes "]" ∧
    get_file_info mime suffix none = FileInfo.errorRecord fnfMsg ∧
    safe_read_file none none =
      Except.ok (strBytes "[Error reading file: " ++ strBytes fnfMsg ++ strBytes "]") := by
  refine ⟨rfl, ?_, rfl, ?_, rfl⟩
  · unfold is_text_file
    cases hc : text_extensions.contains suffix <;> simp [hc]
  · cases mime <;> rfl

/-- The operation of the C8 scenario: raises exactly for input 3,
otherwise squares. -/
def c8op (x : Nat) : Except String Nat :=
  if x = 3 then .error "Test error" else .ok (x * x)

/-- Whether an operation outcome is a failure (its `future.result()` call
re-raises). -/
def isFailure {R : Type} : Except String R → Bool
  | .ok _ => false
  | .error _ => true

/-- Unfolding of the collection loop: the successes in completion order and
the number of logged failures. -/
theorem parallel_process_spec {T R : Type} (f : T → Except String R) :
    ∀ (completed : List T) (acc : List R × Nat),
      completed.foldl
        (fun acc item =>
          match f item with
          | .ok r => (acc.1 ++ [r], acc.2)
          | .error _ => (acc.1, acc.2 + 1)) acc =
      (acc.1 ++ completed.filterMap (fun x => (f x).toOption),
       acc.2 + completed.countP (fun x => isFailure (f x))) := by
  intro completed
  induction completed with
  | nil => intro acc; simp
  | cons a l ih =>
    intro acc
    simp only [List.foldl_cons, List.filterMap_cons, List.countP_cons]
    cases hfa : f a with
    | ok r =>
      rw [ih]
      simp [Except.toOption, isFailure, hfa]
    | error e =>
      rw [ih]
      simp [Except.toOption, isFailure, hfa, Nat.add_comm, Nat.add_assoc]

/-- C8: for any completion order of the four submitted items, the result
list of `parallel_process` with an operation failing only on input 3
equals `{op(1), op(2), op(4)} = {1, 4, 16}` as a set, exactly one failure
is logged, and the run returns normally with the other items processed. -/
theorem claim_parallel_isolation (completed : List Nat)
    (h : completed.Perm [1, 2, 3, 4]) :
    (parallel_process completed c8op).1.toFinset = ({1, 4, 16} : Finset Nat) ∧
    (parallel_process completed c8op).2 = 1 := by
  have hres : parallel_process completed c8op =
      (completed.filterMap (fun x => (c8op x).toOption),
       completed.countP (fun x => isFailure (c8op x))) := by
    unfold parallel_process
    rw [parallel_process_spec c8op completed ([], 0)]
    simp
  have h1 : (parallel_process completed c8op).1 =
      completed.filterMap (fun x => (c8op x).toOption) := by rw [hres]
  have h2 : (parallel_process completed c8op).2 =
      completed.countP (fun x => isFailure (c8op x)) := by rw [hres]
  constructor
  · have hperm := h.filterMap (fun x => (c8op x).toOption)
    rw [h1, List.toFinset_eq_of_perm _ _ hperm]
    decide
  · rw [h2, h.countP_eq (fun x => isFailure (c8op x))]
    decide

/-- Witness: the completion order `[3, 1, 4, 2]`. -/
theorem claim_parallel_isolation_witness :
    ([3, 1, 4, 2] : List Nat).Perm [1, 2, 3, 4] ∧
    (parallel_process [3, 1, 4, 2] c8op).1.toFinset = ({1, 4, 16} : Finset Nat) ∧
    (parallel_process [3, 1, 4, 2] c8op).2 = 1 := by
  have h := claim_parallel_isolation [3, 1, 4, 2] (by decide)
  exact ⟨by decide, h.1, h.2⟩

/-- Text content made of the given lines, each terminated by a newline. -/
def mkTerminated (lines : List (List Nat)) : List Nat :=
  (lines.map (fun l => l ++ [10])).flatten

/-- Unfolding of `count_lines_in_file` on a readable file. -/
theorem count_lines_some (c : List Nat) :
    count_lines_in_file (some c) =
      if c.length = 0 then 0
      else if c.getLast? = some 10 then c.count 10 else c.count 10 + 1 := by
  show handled
      (if c.length = 0 then Except.ok 0
       else Except.ok (if c.getLast? = some 10 then c.count 10 else c.count 10 + 1))
      (fun _ => 0) = _
  by_cases hc : c.length = 0 <;> simp [hc, handled]

/-- Prepending a line to terminated content. -/
theorem mkTerminated_cons (l : List Nat) (ls : List (List Nat)) :
    mkTerminated (l :: ls) = l ++ [10] ++ mkTerminated ls := by
  simp [mkTerminated]

/-- Splitting terminated content at a line boundary. -/
theorem mkTerminated_append (a b : List (List Nat)) :
    mkTerminated (a ++ b) = mkTerminated a ++ mkTerminated b := by
  simp [mkTerminated]

/-- Newline count of terminated content whose lines hold no newline. -/
theorem count_mkTerminated (lines : List (List Nat))
    (h : ∀ l ∈ lines, (10 : Nat) ∉ l) :
    (mkTerminated lines).count 10 = lines.length := by
  induction lines with
  | nil => rfl
  | cons l ls ih =>
    rw [mkTerminated_cons, List.count_append, List.count_append,
      ih (fun x hx => h x (List.mem_cons_of_mem l hx)),
      List.count_eq_zero_of_not_mem (h l (List.mem_cons_self l ls))]
    simp
    omega

/-- Non-empty terminated content ends in a newline. -/
theorem getLast_mkTerminated (lines : List (List Nat)) (h : lines ≠ []) :
    (mkTerminated lines).getLast? = some 10 := by
  obtain ⟨L, b, rfl⟩ := (List.eq_nil_or_concat lines).resolve_left h
  rw [List.concat_eq_append, mkTerminated_append, mkTerminated_cons]
  simp [mkTerminated]

/-- C6 counterexample: the content `"a\n\n"` has two trailing-newline-
terminated lines (`"a"` and the empty line) and `count_lines` returns 2,
but with the final newline stripped the content is `"a\n"` and
`count_lines` returns 1, not 2: the empty final line disappears with its
terminator. -/
theorem claim_count_lines_counterexample :
    mkTerminated [[97], []] = [97, 10, 10] ∧
    (∀ l ∈ [[97], ([] : List Nat)], (10 : Nat) ∉ l) ∧
    count_lines_in_file (some [97, 10, 10]) = 2 ∧
    ([97, 10, 10] : List Nat).dropLast = [97, 10] ∧
    count_lines_in_file (some [97, 10]) = 1 := by
  refine ⟨rfl, by decide, ?_, by decide, ?_⟩ <;> rw [count_lines_some] <;> decide

/-- C6 amended: `count_lines` is 0 and `sample` is empty on an empty file;
for content with N newline-terminated lines `count_lines` returns N, and
with the final newline stripped it still returns N provided the final
line is non-empty (for an empty final line the count drops to N - 1,
`claim_count_lines_counterexample`). -/
theorem claim_count_lines_amended (lines : List (List Nat)) (k m : Nat)
    (hnl : ∀ l ∈ lines, (10 : Nat) ∉ l)
    (hne : lines ≠ []) (hlast : lines.getLast? ≠ some []) :
    count_lines_in_file (some []) = 0 ∧
    memory_efficient_file_sample (some []) k m = [] ∧
    count_lines_in_file (some (mkTerminated lines)) = lines.length ∧
    count_lines_in_file (some ((mkTerminated lines).dropLast)) = lines.length := by
  refine ⟨rfl, rfl, ?_, ?_⟩
  · rw [count_lines_some]
    have hend := getLast_mkTerminated lines hne
    have hlen : (mkTerminated lines).length ≠ 0 := by
      intro h0
      rw [List.length_eq_zero.mp h0] at hend
      exact (Option.noConfusion hend)
    rw [if_neg hlen, if_pos hend, count_mkTerminated lines hnl]
  · obtain ⟨init, last, rfl⟩ : ∃ L b, lines = L ++ [b] := by
      obtain ⟨L, b, h⟩ := (List.eq_nil_or_concat lines).resolve_left hne
      exact ⟨L, b, by simpa using h⟩
    have hlast10 : (10 : Nat) ∉ last := hnl last (by simp)
    have hlastne : last ≠ [] := by
      intro h0
      exact hlast (by simp [h0, List.getLast?_concat])
    have hshape : (mkTerminated (init ++ [last])).dropLast =
        mkTerminated init ++ last := by
      rw [mkTerminated_append, mkTerminated_cons]
      show (mkTerminated init ++ (last ++ [10] ++ mkTerminated [])).dropLast = _
      simp only [mkTerminated, List.map_nil, List.flatten_nil, List.append_nil]
      rw [← List.append_assoc, List.dropLast_concat]
    rw [hshape, count_lines_some]
    have hlenne : (mkTerminated init ++ last).length ≠ 0 := by
      simp [List.length_append, hlastne]
    have hgl : (mkTerminated init ++ last).getLast? ≠ some 10 := by
      rw [List.getLast?_append]
      have : last.getLast? = some (last.getLast hlastne) :=
        (List.getLast?_eq_getLast last hlastne)
      rw [this]
      intro hcontra
      have hm : last.getLast hlastne ∈ last := List.getLast_mem hlastne
      have : last.getLast hlastne = 10 := by
        simpa [Option.or] using hcontra
      rw [this] at hm
      exact hlast10 hm
    rw [if_neg hlenne, if_neg hgl, List.count_append,
      count_mkTerminated init (fun x hx => hnl x (List.mem_append_left _ hx)),
      List.count_eq_zero_of_not_mem hlast10]
    simp

/-- Witness: the two-line content `"a\nb\n"`. -/
theorem claim_count_lines_amended_witness :
    (∀ l ∈ [[97], [98]], (10 : Nat) ∉ l) ∧
    ([[97], [98]] : List (List Nat)) ≠ [] ∧
    ([[97], [98]] : List (List Nat)).getLast? ≠ some [] ∧
    (count_lines_in_file (some []) = 0 ∧
     memory_efficient_file_sample (some []) 3 7 = [] ∧
     count_lines_in_file (some (mkTerminated [[97], [98]])) = 2 ∧
     count_lines_in_file (some ((mkTerminated [[97], [98]]).dropLast)) = 2) := by
  have h := claim_count_lines_amended [[97], [98]] 3 7
    (by decide) (by decide) (by decide)
  exact ⟨by decide, by decide, by decide, h⟩

/-- The content `"a\n"` repeated `n` times. -/
def rep2 (n : Nat) : List Nat := (List.replicate n ([97, 10] : List Nat)).flatten

/-- Unfolding one repetition at the front. -/
theorem rep2_succ (n : Nat) : rep2 (n + 1) = 97 :: 10 :: rep2 n := by
  simp [rep2, List.replicate_succ]

/-- Byte length of the repeated content. -/
theorem rep2_length (n : Nat) : (rep2 n).length = 2 * n := by
  induction n with
  | zero => rfl
  | succ n ih => rw [rep2_succ]; simp [ih]; omega

/-- Splitting the repeated content. -/
theorem rep2_append (a b : Nat) : rep2 (a + b) = rep2 a ++ rep2 b := by
  induction a with
  | zero => simp [rep2]
  | succ a ih =>
    have h1 : a + 1 + b = (a + b) + 1 := by omega
    rw [h1, rep2_succ, rep2_succ, ih]
    rfl

/-- Dropping whole repetitions from the front. -/
theorem rep2_drop (a n : Nat) : (rep2 (a + n)).drop (2 * a) = rep2 n := by
  induction a with
  | zero => simp
  | succ a ih =>
    have h1 : a + 1 + n = (a + n) + 1 := by omega
    have h2 : 2 * (a + 1) = 2 * a + 1 + 1 := by omega
    rw [h1, rep2_succ, h2, List.drop_succ_cons, List.drop_succ_cons, ih]

/-- Newline count of the repeated content. -/
theorem rep2_count (n : Nat) : (rep2 n).count 10 = n := by
  induction n with
  | zero => rfl
  | succ n ih => rw [rep2_succ]; simp [List.count_cons, ih]

/-- Non-empty repeated content ends in a newline. -/
theorem rep2_getLast (n : Nat) : (rep2 (n + 1)).getLast? = some 10 := by
  have h : rep2 (n + 1) = rep2 n ++ ([97] ++ [10]) := by
    rw [rep2_append n 1]; rfl
  rw [h, ← List.append_assoc, List.getLast?_concat]

/-- One forward line read on the repeated content. -/
theorem splitFirstLine_rep2 (n : Nat) :
    splitFirstLine (rep2 (n + 1)) = ([97, 10], rep2 n) := by
  rw [rep2_succ]
  simp [splitFirstLine]

/-- Single step of the forward head loop on non-empty content. -/
theorem firstLines_cons (k b : Nat) (rest : List Nat) :
    firstLines (k + 1) (b :: rest) =
      (splitFirstLine (b :: rest)).1 ::
        firstLines k (splitFirstLine (b :: rest)).2 := rfl

/-- The forward head loop on the repeated content. -/
theorem firstLines_rep2 : ∀ k n, k ≤ n →
    firstLines k (rep2 n) = List.replicate k ([97, 10] : List Nat) := by
  intro k
  induction k with
  | zero => intro n _; rfl
  | succ k ih =>
    intro n hk
    obtain ⟨n', rfl⟩ : ∃ n', n = n' + 1 :=
      ⟨n - 1, by omega⟩
    have hstep : firstLines (k + 1) (rep2 (n' + 1)) =
        [97, 10] :: firstLines k (rep2 n') := by
      rw [rep2_succ, firstLines_cons, ← rep2_succ, splitFirstLine_rep2]
    rw [hstep, ih n' (by omega)]
    rfl

/-- Backward chunk split of the repeated content: `n` one-character lines
followed by the empty fragment after the final newline. -/
theorem splitOnNl_rep2 (n : Nat) :
    splitOnNl (rep2 n) = List.replicate n ([97] : List Nat) ++ [[]] := by
  induction n with
  | zero => rfl
  | succ n ih =>
    rw [rep2_succ]
    show (let r := splitOnNl (10 :: rep2 n);
      if (97 : Nat) = 10 then [] :: r
      else match r with | [] => [[97]] | h :: t => (97 :: h) :: t) = _
    have h10 : splitOnNl (10 :: rep2 n) = [] :: splitOnNl (rep2 n) := by
      show (let r := splitOnNl (rep2 n);
        if (10 : Nat) = 10 then [] :: r
        else match r with | [] => [[10]] | h :: t => (10 :: h) :: t) = _
      simp
    rw [h10, ih]
    simp [List.replicate_succ]

/-- Single step of the reversed-lines loop. -/
theorem procChunkLines_cons (k : Nat) (l : List Nat) (rest d : List (List Nat)) :
    procChunkLines k (l :: rest) d =
      (let d1 := if l ≠ [] then (l :: d).take k else d;
       if k ≤ d1.length then d1 else procChunkLines k rest d1) := rfl

/-- Feeding identical non-empty lines into a deque that has room: the deque
fills up to capacity `k` and the loop stops. -/
theorem procChunkLines_replicate :
    ∀ (m k : Nat) (d : List (List Nat)), d.length < k → k ≤ m + d.length →
      procChunkLines k (List.replicate m ([97] : List Nat)) d =
        List.replicate (k - d.length) ([97] : List Nat) ++ d := by
  intro m
  induction m with
  | zero => intro k d h1 h2; omega
  | succ m ih =>
    intro k d h1 h2
    rw [List.replicate_succ, procChunkLines_cons]
    have hne : ([97] : List Nat) ≠ [] := by decide
    have htake : (([97] : List Nat) :: d).take k = [97] :: d :=
      List.take_of_length_le (by simp; omega)
    simp only [hne, ne_eq, not_false_eq_true, if_true, htake]
    by_cases hfull : k ≤ ([97] :: d).length
    · rw [if_pos (by simpa using hfull)]
      have hk : k = d.length + 1 := by simp at hfull; omega
      rw [hk]
      simp [List.replicate_succ]
    · rw [if_neg (by simpa using hfull)]
      rw [ih k ([97] :: d) (by simp at hfull ⊢; omega) (by simp at hfull ⊢; omega)]
      have hkd : k - d.length = (k - (d.length + 1)) + 1 := by
        simp at hfull; omega
      rw [hkd, List.replicate_succ']
      simp

/-- The backward tail loop of the C5 scenario: one 4096-byte chunk yields
2048 newlines, the deque fills with five `"a"` lines, and the loop stops
with `position = 6144` still unread. -/
theorem backwardLoop_exFile5 :
    backwardLoop (rep2 5120) 5 10240 0 [] = List.replicate 5 ([97] : List Nat) := by
  have hmin : min 4096 10240 = 4096 := by norm_num
  have hchunk : ((rep2 5120).drop (10240 - 4096)).take 4096 = rep2 2048 := by
    rw [show (10240 - 4096 : Nat) = 2 * 3072 by norm_num,
      show (5120 : Nat) = 3072 + 2048 by norm_num, rep2_drop]
    exact List.take_of_length_le (by rw [rep2_length])
  rw [backwardLoop]
  rw [dif_neg (by norm_num)]
  simp only [hmin, hchunk, splitOnNl_rep2]
  have hrev : (List.replicate 2048 ([97] : List Nat) ++ [[]]).reverse =
      [] :: List.replicate 2048 ([97] : List Nat) := by
    rw [List.reverse_append, List.reverse_replicate]
    rfl
  rw [hrev, procChunkLines_cons]
  simp only [ne_eq, not_true_eq_false, if_false]
  rw [if_neg (by decide)]
  rw [procChunkLines_replicate 2048 5 [] (by decide) (by simp)]
  have hlen : (List.replicate 2048 ([97] : List Nat) ++ [[]]).length - 1 = 2048 := by
    simp
  rw [hlen]
  rw [backwardLoop]
  rw [dif_pos (by omega)]
  simp

/-- Full evaluation of the sampler on the C5 file: the 10240-byte file is
not below `2 * 100`, so the head/tail branch runs. -/
theorem sample_exFile5 :
    memory_efficient_file_sample (some (rep2 5120)) 5 100 =
      ((List.replicate 5 ([97, 10] : List Nat)).flatten ++ blockMarker) ++
        List.intercalate [10] (List.replicate 5 ([97] : List Nat)) := by
  show (let file_size := (rep2 5120).length
    if file_size = 0 then []
    else if file_size < 100 * 2 then
      let c := (rep2 5120).take 100
      if c.length ≤ 100 then c
      else c.take (100 / 2) ++ inlineMarker ++ pySliceLast c (100 / 2)
    else
      let first_lines := firstLines 5 (rep2 5120)
      let last_lines := backwardLoop (rep2 5120) 5 file_size 0 []
      let combined := first_lines.flatten
      let combined :=
        if first_lines ≠ [] ∧ last_lines ≠ [] ∧
            first_lines.length < count_lines_in_file (some (rep2 5120)) then
          combined ++ blockMarker
        else combined
      combined ++ List.intercalate [10] last_lines) = _
  rw [rep2_length]
  norm_num
  rw [firstLines_rep2 5 5120 (by norm_num), backwardLoop_exFile5]
  have hcl : count_lines_in_file (some (rep2 5120)) = 5120 := by
    rw [count_lines_some, rep2_length]
    rw [if_neg (by norm_num),
      if_pos (show (rep2 5120).getLast? = some 10 from rep2_getLast 5119),
      rep2_count]
  rw [hcl]
  rw [if_pos ⟨by decide, by decide, by simp⟩]
  exact (List.append_assoc _ _ _).symm

/-- C5 counterexample: the 10240-byte file `"a\n" * 5120` with
`max_chars = 100` does not satisfy `size < 2 * max_chars`, so the sampler
takes the head/tail line branch and returns a 48-character string, not a
100-character prefix of the file. -/
theorem claim_ten_kb_counterexample :
    (rep2 5120).length = 10240 ∧
    ¬ (rep2 5120).length < 100 * 2 ∧
    (memory_efficient_file_sample (some (rep2 5120)) 5 100).length = 48 ∧
    (memory_efficient_file_sample (some (rep2 5120)) 5 100).length ≠ 100 := by
  have hlen : (rep2 5120).length = 10240 := by rw [rep2_length]
  have h48 : (memory_efficient_file_sample (some (rep2 5120)) 5 100).length = 48 := by
    rw [sample_exFile5]
    decide
  exact ⟨hlen, by omega, h48, by omega⟩

/-- C5 amended: the exact-slice behaviour belongs to files that actually
take the small-file branch: whenever the byte size is below `2 * max_chars`
and at least `max_chars`, the sample is exactly the first `max_chars`
characters of the file. -/
theorem claim_small_file_exact_slice (content : List Nat) (k m : Nat)
    (h1 : content.length < m * 2) (h2 : m ≤ content.length) :
    memory_efficient_file_sample (some content) k m = content.take m ∧
    (memory_efficient_file_sample (some content) k m).length = m := by
  have he := sample_small_eq_take content k m h1
  refine ⟨he, ?_⟩
  rw [he, List.length_take]
  omega

/-- Witness: a 150-byte file with `max_chars = 100`. -/
theorem claim_small_file_exact_slice_witness :
    (List.replicate 150 (97 : Nat)).length < 100 * 2 ∧
    100 ≤ (List.replicate 150 (97 : Nat)).length ∧
    (memory_efficient_file_sample (some (List.replicate 150 97)) 10 100 =
      (List.replicate 150 (97 : Nat)).take 100 ∧
     (memory_efficient_file_sample (some (List.replicate 150 97)) 10 100).length = 100) := by
  have h := claim_small_file_exact_slice (List.replicate 150 97) 10 100
    (by simp) (by simp)
  exact ⟨by simp, by simp, h⟩

/-- The C1 failing input: three one-character filler lines, a 4092-byte
`"S"` line whose interior the backward 4096-byte chunk boundary splits,
and a final `"END"` line; 4103 bytes, 5 lines. -/
def c1File : List Nat :=
  strBytes "x\nx\nx\n" ++ (List.replicate 4092 83 ++ (10 :: strBytes "END\n"))

/-- Regrouping of the C1 file at the backward chunk boundary (byte 7). -/
theorem c1File_shape :
    c1File = [120, 10, 120, 10, 120, 10, 83] ++
      (List.replicate 4091 83 ++ (10 :: [69, 78, 68, 10])) := rfl

/-- Single non-newline step of the chunk splitter. -/
theorem splitOnNl_cons (b : Nat) (rest : List Nat) :
    splitOnNl (b :: rest) =
      if b = 10 then [] :: splitOnNl rest
      else match splitOnNl rest with
        | [] => [[b]]
        | h :: t => (b :: h) :: t := rfl

/-- Splitting a run of identical non-newline bytes followed by more
content: the run joins the first fragment of the remainder. -/
theorem splitOnNl_replicate_append (n b : Nat) (rest h : List Nat)
    (t : List (List Nat)) (hb : b ≠ 10) (hrest : splitOnNl rest = h :: t) :
    splitOnNl (List.replicate n b ++ rest) = (List.replicate n b ++ h) :: t := by
  induction n with
  | zero => simpa using hrest
  | succ n ih =>
    rw [List.replicate_succ, List.cons_append, splitOnNl_cons, if_neg hb, ih]
    rfl

/-- Skipping an empty fragment leaves the deque unchanged when it is not
yet full. -/
theorem procChunkLines_nil_line (k : Nat) (rest d : List (List Nat))
    (hd : d.length < k) :
    procChunkLines k ([] :: rest) d = procChunkLines k rest d := by
  rw [procChunkLines_cons]
  simp [Nat.not_le.mpr hd]

/-- Prepending a non-empty fragment to a deque that has room. -/
theorem procChunkLines_step (k : Nat) (l : List Nat) (rest d : List (List Nat))
    (hl : l ≠ []) (hroom : d.length + 1 ≤ k) :
    procChunkLines k (l :: rest) d =
      if k ≤ d.length + 1 then l :: d else procChunkLines k rest (l :: d) := by
  rw [procChunkLines_cons]
  have htake : (l :: d).take k = l :: d :=
    List.take_of_length_le (by simp; omega)
  simp [hl, htake]

/-- The replicated `"S"` fragment is non-empty. -/
theorem replicate_4091_ne : (List.replicate 4091 (83 : Nat)) ≠ [] := by
  intro h
  have hl := congrArg List.length h
  rw [List.length_replicate, List.length_nil] at hl
  exact absurd hl (by norm_num)

/-- Byte length of the C1 file. -/
theorem c1File_length : c1File.length = 4103 := by
  show (strBytes "x\nx\nx\n" ++
    (List.replicate 4092 83 ++ (10 :: strBytes "END\n"))).length = 4103
  rw [List.length_append, List.length_append, List.length_replicate,
    show (strBytes "x\nx\nx\n").length = 6 from by decide,
    show ((10 : Nat) :: strBytes "END\n").length = 5 from by decide]

/-- Line count of the C1 file: three filler lines, the `"S"` line, and
`"END"`. -/
theorem c1File_count_lines : count_lines_in_file (some c1File) = 5 := by
  rw [count_lines_some]
  have hc : c1File.count 10 = 5 := by
    show (strBytes "x\nx\nx\n" ++
      (List.replicate 4092 83 ++ (10 :: strBytes "END\n"))).count 10 = 5
    rw [List.count_append, List.count_append,
      List.count_eq_zero_of_not_mem
        (by rw [List.mem_replicate]; decide : (10 : Nat) ∉ List.replicate 4092 83),
      show List.count 10 (strBytes "x\nx\nx\n") = 3 from by decide,
      show List.count 10 ((10 : Nat) :: strBytes "END\n") = 2 from by decide]
  have hgl : c1File.getLast? = some 10 := by
    show (strBytes "x\nx\nx\n" ++
      (List.replicate 4092 83 ++ (10 :: strBytes "END\n"))).getLast? = some 10
    rw [List.getLast?_append, List.getLast?_append,
      show ((10 : Nat) :: strBytes "END\n").getLast? = some 10 from by decide,
      Option.or_some, Option.or_some]
  rw [if_neg (by rw [c1File_length]; norm_num), if_pos hgl, hc]

/-- The backward tail loop on the C1 file: the single 4096-byte chunk
starts at byte 7, one byte past the start of the `"S"` line, so the
fragment fed to the deque is only 4091 `"S"` bytes; the chunk holds two
newlines, the count reaches `sample_lines = 2`, and the loop stops without
ever reading the earlier chunk that holds the line's first byte. -/
theorem backwardLoop_c1 :
    backwardLoop c1File 2 4103 0 [] =
      [List.replicate 4091 83, [69, 78, 68]] := by
  have hmin : min 4096 4103 = 4096 := by norm_num
  have hdrop : c1File.drop 7 =
      List.replicate 4091 83 ++ (10 :: [69, 78, 68, 10]) := by
    rw [c1File_shape]
    exact List.drop_left' (by decide)
  have hchunk : (c1File.drop (4103 - 4096)).take 4096 =
      List.replicate 4091 83 ++ (10 :: [69, 78, 68, 10]) := by
    rw [show (4103 - 4096 : Nat) = 7 by norm_num, hdrop]
    exact List.take_of_length_le
      (by rw [List.length_append, List.length_replicate]; norm_num)
  have hsplit : splitOnNl (List.replicate 4091 83 ++ (10 :: [69, 78, 68, 10])) =
      [List.replicate 4091 83, [69, 78, 68], []] := by
    rw [splitOnNl_replicate_append 4091 83 (10 :: [69, 78, 68, 10]) []
      [[69, 78, 68], []] (by decide) (by decide), List.append_nil]
  have hproc : procChunkLines 2
      ([List.replicate 4091 83, [69, 78, 68], []] : List (List Nat)).reverse [] =
      [List.replicate 4091 83, [69, 78, 68]] := by
    rw [show ([List.replicate 4091 83, [69, 78, 68], []] :
        List (List Nat)).reverse =
      [[], [69, 78, 68], List.replicate 4091 83] from rfl]
    rw [procChunkLines_nil_line 2 _ [] (by decide)]
    rw [procChunkLines_step 2 [69, 78, 68] _ [] (by decide) (by decide)]
    rw [if_neg (by decide)]
    rw [procChunkLines_step 2 (List.replicate 4091 83) _ [[69, 78, 68]]
      replicate_4091_ne (by decide)]
    rw [if_pos (by decide)]
  have hlen3 : ([List.replicate 4091 83, [69, 78, 68], []] :
      List (List Nat)).length = 3 := rfl
  rw [backwardLoop, dif_neg (by norm_num)]
  simp only [hmin, hchunk, hsplit, hproc, hlen3]
  rw [backwardLoop, dif_pos (by norm_num)]

/-- Joining two tail lines with a newline. -/
theorem intercalate_pair (x y : List Nat) :
    List.intercalate [10] [x, y] = x ++ 10 :: y := by
  simp [List.intercalate, List.intersperse]

/-- Full evaluation of the sampler on the C1 file: head lines, block
marker, then the tail whose first entry is the 4091-byte partial fragment
of the split `"S"` line. -/
theorem sample_c1 :
    memory_efficient_file_sample (some c1File) 2 2000 =
      (([120, 10, 120, 10] : List Nat) ++ blockMarker) ++
        (List.replicate 4091 83 ++ 10 :: [69, 78, 68]) := by
  have hfirst : firstLines 2 c1File = [[120, 10], [120, 10]] := rfl
  show (let file_size := c1File.length
    if file_size = 0 then []
    else if file_size < 2000 * 2 then
      let c := c1File.take 2000
      if c.length ≤ 2000 then c
      else c.take (2000 / 2) ++ inlineMarker ++ pySliceLast c (2000 / 2)
    else
      let first_lines := firstLines 2 c1File
      let last_lines := backwardLoop c1File 2 file_size 0 []
      let combined := first_lines.flatten
      let combined :=
        if first_lines ≠ [] ∧ last_lines ≠ [] ∧
            first_lines.length < count_lines_in_file (some c1File) then
          combined ++ blockMarker
        else combined
      combined ++ List.intercalate [10] last_lines) = _
  rw [c1File_length]
  norm_num
  rw [hfirst, backwardLoop_c1, c1File_count_lines]
  rw [if_pos ⟨by decide, by decide, by decide⟩]
  rw [intercalate_pair]
  rfl

/-- C1 (failing input, utils.py lines 388-403): the C1 file has 5 > 2·2
lines and 4103 ≥ 2·2000 bytes, and its penultimate line consists of 4092
`"S"` bytes followed by its newline; yet `sample(path, 2, 2000)` never
contains those 4092 bytes verbatim, because the backward chunk boundary
splits the line and the loop appends the 4091-byte partial leading
fragment as a standalone tail line instead of discarding it as a
continuation. -/
theorem claim_tail_fragment_bug :
    2 * 2 < count_lines_in_file (some c1File) ∧
    2000 * 2 ≤ c1File.length ∧
    List.replicate 4092 83 ++ [10] <:+: c1File ∧
    ¬ List.replicate 4092 83 <:+:
        memory_efficient_file_sample (some c1File) 2 2000 := by
  refine ⟨by rw [c1File_count_lines]; norm_num,
    by rw [c1File_length]; norm_num, ?_, ?_⟩
  · refine ⟨strBytes "x\nx\nx\n", strBytes "END\n", ?_⟩
    show (strBytes "x\nx\nx\n" ++ (List.replicate 4092 83 ++ [10])) ++
      strBytes "END\n" = c1File
    rw [List.append_assoc, List.append_assoc]
    rfl
  · intro hinf
    have hcount := hinf.sublist.count_le 83
    rw [sample_c1, List.count_append, List.count_append, List.count_append,
      List.count_replicate_self, List.count_replicate_self,
      List.count_eq_zero_of_not_mem
        (by decide : (83 : Nat) ∉ ([120, 10, 120, 10] : List Nat)),
      List.count_eq_zero_of_not_mem
        (by decide : (83 : Nat) ∉ blockMarker),
      List.count_eq_zero_of_not_mem
        (by decide : (83 : Nat) ∉ ((10 : Nat) :: [69, 78, 68]))] at hcount
    omega

end LlmCartographer
